import Mathlib

/-!
Shallow embedding of `src/blockchain/blockchain.go` (package `blockchain` of
rioda-org/idena-go): the state transition engine (`processTxs`,
`applyAndValidateBlockState`, `applyBlock`), block validation
(`validateBlockParentHash`, `ValidateProposedBlock`, `ValidateProposerProof`),
block construction (`GenerateEmptyBlock`, `ProposeBlock`) and head advancement
(`AddBlock` / `insertBlock`).

Collaborators that live outside `src/` (the account store `core/state`, the
`types` package hashing, `crypto` Keccak-256 and the `vrf/p256` VRF) are
modelled from the specification; each such definition carries a doc comment
starting with `Modelled from the spec:`.
-/

deriving instance DecidableEq for Except

namespace IdenaChain

/-- `2^64`, the modulus of Go `uint64` arithmetic (block heights and
account nonces are `uint64` in the source). -/
def u64 : Nat := 2 ^ 64

abbrev Address := Nat

/-- Hashes, roots, seeds, byte strings: sequences of bytes modelled as
lists of naturals. -/
abbrev Hash := List Nat

/-- Modelled from the spec: an account of the account store (`core/state`,
outside `src/`) holds a balance (an arbitrary-precision integer, `big.Int`),
a nonce (`uint64`) and the identity approval flag (spec section 3,
Account State). -/
structure Account where
  balance : Int
  nonce : Nat
  approved : Bool
deriving DecidableEq, Repr

/-- The zero value of an absent account: zero balance, zero nonce,
not approved. -/
def defaultAccount : Account := { balance := 0, nonce := 0, approved := false }

abbrev AccountMap := List (Address × Account)

def mapGet (m : AccountMap) (a : Address) : Account :=
  match m with
  | [] => defaultAccount
  | (b, acc) :: rest => if b = a then acc else mapGet rest a

def mapSet (m : AccountMap) (a : Address) (acc : Account) : AccountMap :=
  match m with
  | [] => [(a, acc)]
  | (b, acc0) :: rest =>
    if b = a then (b, acc) :: rest else (b, acc0) :: mapSet rest a acc

/-- Modelled from the spec: the account store handle (`core/state.StateDB`,
outside `src/`). `working` holds the contents including pending mutations,
`committed` the durably committed contents; `Commit` persists the working
contents and `Reset` discards the pending mutations (spec section 3:
speculative vs committed write modes; spec section 4.2: full rollback on
failure discards all partial mutations). -/
structure StateDB where
  committed : AccountMap
  working : AccountMap
deriving DecidableEq, Repr

def getAccount (s : StateDB) (a : Address) : Account := mapGet s.working a

def putAccount (s : StateDB) (a : Address) (acc : Account) : StateDB :=
  { s with working := mapSet s.working a acc }

def getBalance (s : StateDB) (a : Address) : Int := (getAccount s a).balance

def getNonce (s : StateDB) (a : Address) : Nat := (getAccount s a).nonce

def setBalance (s : StateDB) (a : Address) (x : Int) : StateDB :=
  putAccount s a { getAccount s a with balance := x }

def addBalance (s : StateDB) (a : Address) (x : Int) : StateDB :=
  putAccount s a { getAccount s a with balance := (getAccount s a).balance + x }

def subBalance (s : StateDB) (a : Address) (x : Int) : StateDB :=
  putAccount s a { getAccount s a with balance := (getAccount s a).balance - x }

def setNonce (s : StateDB) (a : Address) (n : Nat) : StateDB :=
  putAccount s a { getAccount s a with nonce := n }

/-- `GetOrNewIdentityObject(sender).Approve()`: create the identity object if
absent and mark it approved. -/
def approveIdentity (s : StateDB) (a : Address) : StateDB :=
  putAccount s a { getAccount s a with approved := true }

/-- `StateDB.Reset`: discard the pending mutations of the handle. -/
def resetState (s : StateDB) : StateDB := { s with working := s.committed }

/-- `StateDB.Commit(true)`: durably persist the working contents. -/
def commitState (s : StateDB) : StateDB :=
  { committed := s.working, working := s.working }

/-- Canonical code of an integer as a natural, used by the modelled
hash/root encodings. -/
def intCode (x : Int) : Nat := if 0 ≤ x then 2 * x.toNat else 2 * (-x).toNat + 1

def encodeAccount (acc : Account) : List Nat :=
  [intCode acc.balance, acc.nonce, if acc.approved then 1 else 0]

/-- Modelled from the spec: the state root (`StateDB.Root` over the trie,
outside `src/`): a deterministic commitment to the account-state contents,
read after `Precommit` fixes the pending mutations; modelled as the canonical
serialisation of the working contents. -/
def stateRoot (s : StateDB) : Hash :=
  s.working.foldr (fun p acc => p.1 :: encodeAccount p.2 ++ acc) []

inductive TxType
  | sendTx
  | approvingTx
  | sendInviteTx
deriving DecidableEq, Repr

/-- Transaction (`types.Transaction`, declared outside `src/`): nonce, type,
optional recipient, amount, and the sender address recovered from the
signature (`types.Sender`; the source at line 215 discards the recovery
error, so recovery is modelled as total over the carried sender address). -/
structure Transaction where
  accountNonce : Nat
  txType : TxType
  toAddr : Option Address
  amount : Int
  sender : Address
deriving DecidableEq, Repr

structure ProposedHeader where
  parentHash : Hash
  height : Nat
  time : Int
  proposerPubKey : List Nat
  txHash : Hash
  coinbase : Address
  root : Hash
deriving DecidableEq, Repr

structure EmptyBlockHeader where
  parentHash : Hash
  height : Nat
  root : Hash
deriving DecidableEq, Repr

/-- The two-shape block header, modelled as a sum as the spec's section 9
describes the intent of the two optional pointers of `types.Header`. -/
inductive Header
  | proposed (h : ProposedHeader)
  | emptyH (h : EmptyBlockHeader)
deriving DecidableEq, Repr

structure Body where
  transactions : List Transaction
  blockSeed : Hash
  seedProof : List Nat
deriving DecidableEq, Repr

structure Block where
  header : Header
  body : Body
deriving DecidableEq, Repr

def Block.isEmpty (b : Block) : Bool :=
  match b.header with
  | .proposed _ => false
  | .emptyH _ => true

def Block.height (b : Block) : Nat :=
  match b.header with
  | .proposed h => h.height
  | .emptyH h => h.height

def Block.parentHash (b : Block) : Hash :=
  match b.header with
  | .proposed h => h.parentHash
  | .emptyH h => h.parentHash

def Block.root (b : Block) : Hash :=
  match b.header with
  | .proposed h => h.root
  | .emptyH h => h.root

def Block.seed (b : Block) : Hash := b.body.blockSeed

/-- Coinbase of the proposed header; the source reads
`block.Header.ProposedHeader.Coinbase` unconditionally and is only reached
for proposed blocks, so an empty header yields the zero address here. -/
def Block.coinbase (b : Block) : Address :=
  match b.header with
  | .proposed h => h.coinbase
  | .emptyH _ => 0

def encodeOptionAddr (o : Option Address) : List Nat :=
  match o with
  | none => [0]
  | some a => [1, a]

def txTypeCode (t : TxType) : Nat :=
  match t with
  | .sendTx => 0
  | .approvingTx => 1
  | .sendInviteTx => 2

def encodeTx (t : Transaction) : List Nat :=
  [t.accountNonce, txTypeCode t.txType] ++ encodeOptionAddr t.toAddr
    ++ [intCode t.amount, t.sender]

/-- Modelled from the spec: `types.DeriveSha` (outside `src/`), the
commitment to the ordered transaction sequence: a deterministic pure function
of the ordered transactions (spec section 4.3). -/
def deriveSha (txs : List Transaction) : Hash :=
  7 :: txs.foldr (fun t acc => encodeTx t ++ acc) []

/-- Modelled from the spec: the content hash of a block (`types`, outside
`src/`): a pure, order-sensitive function of the header fields (spec section
4.3). It does not cover the body seed and seed proof: the source derives the
seed message from this hash before assigning the seed, so the hash cannot
depend on them. -/
def blockHash (b : Block) : Hash :=
  match b.header with
  | .proposed h =>
    1 :: h.parentHash ++ [h.height, intCode h.time] ++ h.proposerPubKey
      ++ h.txHash ++ [h.coinbase] ++ h.root
  | .emptyH h => 2 :: h.parentHash ++ [h.height] ++ h.root

/-- Modelled from the spec: Keccak-256 (`crypto`, outside `src/`): a
deterministic unkeyed public hash function, modelled as an injective tagged
encoding of its input. -/
def keccak256 (data : List Nat) : Hash := 0 :: data

/-- The Go zero value of `common.Hash`: thirty-two zero bytes. -/
def zeroHash : Hash := List.replicate 32 0

/-- Modelled from the spec: VRF evaluation under a secret key
(`vrf.PrivateKey.Evaluate` of `vrf/p256`, outside `src/`): a keyed function
producing an output together with a proof (spec section 4.1 and glossary).
Because the function is keyed and verifiable only with the proof, its output
is distinct from the unkeyed public Keccak-256 hash; the model realises the
two by distinct tags. -/
def vrfEvaluate (sk : Nat) (data : List Nat) : Hash × List Nat :=
  ((1 + sk) :: data, (2 + sk) :: data)

def marshalPubkey (pk : Nat) : List Nat := [3, pk]

/-- Modelled from the spec: `crypto.UnmarshalPubkey` (outside `src/`):
parsing of marshalled public-key bytes, rejecting structurally invalid data
(spec section 4.1, rejection case a). -/
def unmarshalPubkey (d : List Nat) : Option Nat :=
  match d with
  | [3, pk] => some pk
  | _ => none

/-- Modelled from the spec: `crypto.PubkeyToAddress` (outside `src/`): the
address derived from a public key. -/
def pubkeyToAddress (pk : Nat) : Address := pk

/-- Modelled from the spec: VRF verification (`ProofToHash` of `vrf/p256`,
outside `src/`): yields the evaluation output exactly for the unique valid
proof of the key and message; on an invalid proof it returns, following the
Go convention for error returns, the zero value of the hash together with a
`false` success flag (spec section 4.1: verification must reject a proof that
does not correspond to the claimed output). -/
def proofToHash (pk : Nat) (data : List Nat) (proof : List Nat) : Hash × Bool :=
  if proof = (2 + pk) :: data then ((1 + pk) :: data, true)
  else (zeroHash, false)

/-- Blockchain handle: the current head (`chain.Head`) and the canonical
account-state handle (`chain.appState.State`). -/
structure Chain where
  head : Block
  stdb : StateDB
deriving DecidableEq, Repr

/-- `BlockReward`, set to 5 by `init` (line 59). -/
def blockReward : Int := 5

/-- `ProposerRole` (line 29). -/
def proposerRole : Nat := 1

/-- `getTxFee` (lines 249-251): the fee is a constant zero stub. -/
def getTxFee (tx : Transaction) : Int := 0

/-- `GetSeedData` (lines 253-259): head seed, then the bytes of the block
height, then the block hash. -/
def getSeedData (c : Chain) (b : Block) : List Nat :=
  c.head.seed ++ [b.height] ++ blockHash b

/-- `getProposerData` (lines 305-311): head seed, the proposer role tag, and
the bytes of head height + 1 (`uint64` arithmetic). -/
def getProposerData (c : Chain) : List Nat :=
  c.head.seed ++ [proposerRole] ++ [(c.head.height + 1) % u64]

/-- The type-dispatch switch of `processTxs` (lines 221-241): approval,
send with the funds check, or the invite no-op; yields the mutated state and
the fee contributed to the pool. The source dereferences `tx.To`
unconditionally in the send arm; an absent recipient is read as address 0. -/
def applyTxBody (s : StateDB) (tx : Transaction) : Except String (StateDB × Int) :=
  match tx.txType with
  | .approvingTx => .ok (approveIdentity s tx.sender, 0)
  | .sendTx =>
    let fee := getTxFee tx
    let balance := getBalance s tx.sender
    let change := balance - tx.amount - fee
    if change < 0 then .error "Not enough funds"
    else
      let s1 := subBalance s tx.sender tx.amount
      let s2 := subBalance s1 tx.sender fee
      let s3 := addBalance s2 (tx.toAddr.getD 0) tx.amount
      .ok (s3, fee)
  | .sendInviteTx => .ok (s, 0)

/-- `processTxs` (lines 211-247): sequential application with the nonce check
`GetNonce(sender)+1 == tx.AccountNonce` before each transaction and
`SetNonce(sender, tx.AccountNonce+1)` after it (`uint64` arithmetic); returns
the handle together with the accumulated fee, or the handle at the failure
point together with the error. -/
def processTxs (s : StateDB) (txs : List Transaction) : StateDB × Except String Int :=
  match txs with
  | [] => (s, .ok 0)
  | tx :: rest =>
    if (getNonce s tx.sender + 1) % u64 ≠ tx.accountNonce then
      (s, .error "Invalid tx nonce")
    else
      match applyTxBody s tx with
      | .error e => (s, .error e)
      | .ok (s1, fee) =>
        let s2 := setNonce s1 tx.sender ((tx.accountNonce + 1) % u64)
        match processTxs s2 rest with
        | (s3, .error e) => (s3, .error e)
        | (s3, .ok f) => (s3, .ok (fee + f))

/-- `applyAndValidateBlockState` (lines 191-209): run `processTxs`, then
`SetBalance` the coinbase to the block reward and then `SetBalance` it again
to half the fee pool (`big.Int` Euclidean division), precommit, and for
non-speculative application compare the resulting root with the block's
claimed root. Returns the handle together with the outcome. -/
def applyAndValidateBlockState (s : StateDB) (b : Block) (proposing : Bool) :
    StateDB × Except String Unit :=
  match processTxs s b.body.transactions with
  | (s1, .error e) => (s1, .error e)
  | (s1, .ok totalFee) =>
    let feeReward := Int.ediv totalFee 2
    let s2 := setBalance s1 b.coinbase blockReward
    let s3 := setBalance s2 b.coinbase feeReward
    let actualRoot := stateRoot s3
    if proposing = false ∧ actualRoot ≠ b.root then (s3, .error "Wrong state root")
    else (s3, .ok ())

/-- `applyBlock` (lines 174-189): validate-and-apply for non-empty blocks with
a `Reset` of the handle on failure; when not proposing, `Commit` on success
(the tx-pool reset and the validator-cache refresh are external collaborators
with no effect on the embedded state). Returns the final handle and the
error, if any. -/
def applyBlock (s : StateDB) (b : Block) (proposing : Bool) : StateDB × Option String :=
  match (if b.isEmpty then (s, Except.ok ()) else applyAndValidateBlockState s b proposing) with
  | (s1, .error e) => (resetState s1, some e)
  | (s1, .ok _) => if proposing then (s1, none) else (commitState s1, none)

/-- `validateBlockParentHash` (lines 367-376): the head height must equal the
block height minus one (`uint64` arithmetic) and the block's parent hash must
equal the head's hash. -/
def validateBlockParentHash (c : Chain) (b : Block) : Option String :=
  if c.head.height ≠ (b.height + (u64 - 1)) % u64 then some "Height is invalid"
  else if blockHash c.head ≠ b.parentHash then some "ParentHash is invalid"
  else none

/-- Modelled from the spec: the external per-transaction validator
(`validation.ValidateTx`, outside `src/`; an external collaborator per spec
sections 1 and 6). It is modelled as accepting, so that every rejection
proved below comes from the in-scope checks of this package; the claims
settled here do not depend on any rejection it might add. -/
def validateTx (s : StateDB) (tx : Transaction) : Option String := none

/-- The per-transaction validation loop of `ValidateProposedBlock`
(lines 356-362): first failure aborts. -/
def validateTxs (s : StateDB) (txs : List Transaction) : Option String :=
  match txs with
  | [] => none
  | tx :: rest =>
    match validateTx s tx with
    | some e => some e
    | none => validateTxs s rest

/-- `ValidateProposedBlock` (lines 327-365): parent linkage, proposer-key
parsing, VRF verification of the seed proof over the seed message (here the
`ProofToHash` error IS checked, lines 342-345), the seed equality and
non-emptiness check, the transaction-set hash check, and the external
per-transaction validator. A block with an empty header would dereference a
nil `ProposedHeader` in the source; the model reports an error for it
(callers only pass proposed blocks). -/
def validateProposedBlock (c : Chain) (b : Block) : Option String :=
  match validateBlockParentHash c b with
  | some e => some e
  | none =>
    match b.header with
    | .emptyH _ => some "not a proposed block"
    | .proposed ph =>
      match unmarshalPubkey ph.proposerPubKey with
      | none => some "invalid pubkey"
      | some pk =>
        match proofToHash pk (getSeedData c b) b.body.seedProof with
        | (_, false) => some "invalid vrf proof"
        | (h, true) =>
          if h ≠ b.seed ∨ b.seed.length = 0 then some "Seed is invalid"
          else if deriveSha b.body.transactions ≠ ph.txHash then some "TxHash is invalid"
          else validateTxs c.stdb b.body.transactions

/-- `ValidateProposerProof` (lines 378-394): unmarshal the key, run
`ProofToHash` over the proposer sortition message — the source discards the
`ProofToHash` error at line 388 — and compare the returned hash with the
claimed one. -/
def validateProposerProof (c : Chain) (proof : List Nat) (claimed : Hash)
    (pubKeyData : List Nat) : Option String :=
  match unmarshalPubkey pubKeyData with
  | none => some "invalid pubkey"
  | some pk =>
    let hp := proofToHash pk (getProposerData c) proof
    if hp.1 ≠ claimed then some "Hashes are not equal" else none

/-- `GenerateEmptyBlock` (lines 134-150): parent hash and height from the
head (`uint64` arithmetic), root from the current state handle, no
transactions, and the block seed from Keccak-256 of the seed message of the
freshly constructed block. -/
def generateEmptyBlock (c : Chain) : Block :=
  let b0 : Block :=
    { header := .emptyH
        { parentHash := blockHash c.head
          height := (c.head.height + 1) % u64
          root := stateRoot c.stdb }
      body := { transactions := [], blockSeed := [], seedProof := [] } }
  { b0 with body := { b0.body with blockSeed := keccak256 (getSeedData c b0) } }

/-- `AddBlock` (lines 152-172): parent check; empty blocks are applied
(commit only) and a locally generated empty block is inserted; proposed
blocks are validated, applied non-speculatively, and inserted themselves.
`insertBlock` (lines 298-303) advances the head to the inserted block; on any
failure the head is untouched (the source returns before `insertBlock`). -/
def addBlock (c : Chain) (b : Block) : Except String Chain :=
  match validateBlockParentHash c b with
  | some e => .error e
  | none =>
    if b.isEmpty then
      match applyBlock c.stdb b false with
      | (_, some e) => .error e
      | (s1, none) =>
        .ok { head := generateEmptyBlock { head := c.head, stdb := s1 }, stdb := s1 }
    else
      match validateProposedBlock c b with
      | some e => .error e
      | none =>
        match applyBlock c.stdb b false with
        | (_, some e) => .error e
        | (s1, none) => .ok { head := b, stdb := s1 }

/-- `ProposeBlock` (lines 265-296): build a proposed header from the head,
the mempool batch and the wall clock (external inputs, passed as arguments of
the model), apply speculatively on a disposable check copy of the state, take
the resulting root as the header root, then evaluate the VRF seed over the
completed block. -/
def proposeBlock (c : Chain) (sk : Nat) (now : Int) (txs : List Transaction) :
    Except String Block :=
  let header : ProposedHeader :=
    { parentHash := blockHash c.head
      height := (c.head.height + 1) % u64
      time := now
      proposerPubKey := marshalPubkey sk
      txHash := deriveSha txs
      coinbase := pubkeyToAddress sk
      root := [] }
  let block0 : Block :=
    { header := .proposed header
      body := { transactions := txs, blockSeed := [], seedProof := [] } }
  match applyBlock c.stdb block0 true with
  | (_, some e) => .error e
  | (cs, none) =>
    let block1 : Block := { block0 with header := .proposed { header with root := stateRoot cs } }
    let ev := vrfEvaluate sk (getSeedData c block1)
    .ok { block1 with body := { block1.body with blockSeed := ev.1, seedProof := ev.2 } }

/-- The state root obtained by replaying a block's transactions (with the
coinbase payment) atop a given state: exactly the `actualRoot` that
`applyAndValidateBlockState` computes before its root comparison. -/
def replayStateRoot (s : StateDB) (b : Block) : Except String Hash :=
  match processTxs s b.body.transactions with
  | (_, .error e) => .error e
  | (s1, .ok totalFee) =>
    let s2 := setBalance s1 b.coinbase blockReward
    let s3 := setBalance s2 b.coinbase (Int.ediv totalFee 2)
    .ok (stateRoot s3)

/-! Concrete sample data used by the witness and counterexample theorems. -/

/-- A sample head block: an empty-header block at height 1 with seed `[9]`. -/
def sampleHead : Block := ⟨.emptyH ⟨[], 1, []⟩, ⟨[], [9], []⟩⟩

/-- A clean state handle with no accounts. -/
def sampleState : StateDB := ⟨[], []⟩

/-- A sample chain: `sampleHead` with the empty clean state. -/
def sampleChain : Chain := ⟨sampleHead, sampleState⟩

/-- A proposed block atop `sampleHead` with no transactions, a valid VRF
seed proof (under key 0) over its own seed message, and a claimed root `[9]`
that differs from the root its replay produces: every validation step before
the root comparison passes. -/
def c1BlockW : Block :=
  let b0 : Block :=
    ⟨.proposed ⟨blockHash sampleHead, 2, 0, marshalPubkey 0, deriveSha [],
      pubkeyToAddress 0, [9]⟩, ⟨[], [], []⟩⟩
  let ev := vrfEvaluate 0 (getSeedData sampleChain b0)
  { b0 with body := { b0.body with blockSeed := ev.1, seedProof := ev.2 } }

/-- The bad-nonce transaction of `c5BlockW`: nonce 5 from a sender whose
stored nonce is 0. -/
def c5Tx : Transaction := ⟨5, .approvingTx, none, 0, 1⟩

/-- A proposed block atop `sampleHead` with a valid VRF seed proof whose
single transaction carries nonce 5 while its sender's stored nonce is 0:
every validation step passes and rejection comes from transaction
processing. -/
def c5BlockW : Block :=
  let b0 : Block :=
    ⟨.proposed ⟨blockHash sampleHead, 2, 0, marshalPubkey 0, deriveSha [c5Tx],
      pubkeyToAddress 0, []⟩, ⟨[c5Tx], [], []⟩⟩
  let ev := vrfEvaluate 0 (getSeedData sampleChain b0)
  { b0 with body := { b0.body with blockSeed := ev.1, seedProof := ev.2 } }

/-- An approving transaction with nonce 1 from a fresh sender (address 1). -/
def c3Tx : Transaction := ⟨1, .approvingTx, none, 0, 1⟩

/-- A state whose account 7 holds balance 10 with nonce 0. -/
def c2State : StateDB := ⟨[(7, ⟨10, 0, false⟩)], [(7, ⟨10, 0, false⟩)]⟩

/-- A proposed block with coinbase 7 and one fee-free approving transaction. -/
def c2Block : Block :=
  ⟨.proposed ⟨[], 1, 0, [], [], 7, []⟩, ⟨[⟨1, .approvingTx, none, 0, 3⟩], [], []⟩⟩

/-- A proposed block whose single transaction has a bad nonce, so that its
application fails mid-way. -/
def c7BlockW : Block :=
  ⟨.proposed ⟨[], 1, 0, [], [], 0, []⟩, ⟨[⟨5, .approvingTx, none, 0, 1⟩], [], []⟩⟩

/-- A state whose account 1 holds balance 5 with nonce 0. -/
def c8SelfState : StateDB := ⟨[(1, ⟨5, 0, false⟩)], [(1, ⟨5, 0, false⟩)]⟩

/-- A send of the full balance 5 from account 1 to itself (`amount + fee`
equals the balance and the recipient is the sender). -/
def c8SelfTx : Transaction := ⟨1, .sendTx, some 1, 5, 1⟩

/-- The block `ProposeBlock` yields on `sampleChain` with key 0, time 0 and
an empty transaction batch. -/
def c9WBlock : Block :=
  match proposeBlock sampleChain 0 0 [] with
  | .ok b => b
  | .error _ => sampleHead

/-- A well-linked empty block atop `sampleHead` whose claimed root `[42]`
differs from the chain's state root. -/
def c10Bad : Block := ⟨.emptyH ⟨blockHash sampleHead, 2, [42]⟩, ⟨[], [], []⟩⟩

/-- The chain `AddBlock` produces when fed `c10Bad` on `sampleChain`. -/
def c10After : Chain :=
  match addBlock sampleChain c10Bad with
  | .ok c => c
  | .error _ => sampleChain

/-! Helper lemmas about the engine. -/

/-- Writing an account touches only the working contents. -/
theorem putAccount_committed (s : StateDB) (a : Address) (acc : Account) :
    (putAccount s a acc).committed = s.committed := rfl

/-- The transaction switch never touches the committed contents. -/
theorem applyTxBody_committed {s s1 : StateDB} {tx : Transaction} {f : Int}
    (h : applyTxBody s tx = .ok (s1, f)) : s1.committed = s.committed := by
  unfold applyTxBody at h
  cases htt : tx.txType <;> rw [htt] at h
  case sendTx =>
    by_cases hc : getBalance s tx.sender - tx.amount - getTxFee tx < 0
    · simp [hc] at h
    · simp [hc] at h
      obtain ⟨h1, h2⟩ := h
      rw [← h1]
      rfl
  case approvingTx =>
    obtain ⟨h1, h2⟩ := by simpa using h
    rw [← h1]
    rfl
  case sendInviteTx =>
    obtain ⟨h1, h2⟩ := by simpa using h
    rw [← h1]

/-- Transaction processing never touches the committed contents. -/
theorem processTxs_committed (txs : List Transaction) :
    ∀ s : StateDB, ((processTxs s txs).1).committed = s.committed := by
  induction txs with
  | nil => intro s; rfl
  | cons tx rest ih =>
    intro s
    unfold processTxs
    by_cases hn : (getNonce s tx.sender + 1) % u64 ≠ tx.accountNonce
    · simp [hn]
    · simp [hn]
      cases hb : applyTxBody s tx with
      | error e => simp
      | ok p =>
        obtain ⟨s1, fee⟩ := p
        have hc1 : s1.committed = s.committed := applyTxBody_committed hb
        cases hr : processTxs (setNonce s1 tx.sender ((tx.accountNonce + 1) % u64)) rest with
        | mk s3 r =>
          have hc2 : s3.committed = s1.committed := by
            have hcc := ih (setNonce s1 tx.sender ((tx.accountNonce + 1) % u64))
            rw [hr] at hcc
            exact hcc
          cases r <;> simp [hr, hc1, hc2]

/-- Block-state application never touches the committed contents. -/
theorem applyAndValidate_committed (s : StateDB) (b : Block) (p : Bool) :
    ((applyAndValidateBlockState s b p).1).committed = s.committed := by
  unfold applyAndValidateBlockState
  cases hr : processTxs s b.body.transactions with
  | mk s1 r =>
    have hc : s1.committed = s.committed := by
      have hcc := processTxs_committed b.body.transactions s
      rw [hr] at hcc
      exact hcc
    cases r with
    | error e => simpa using hc
    | ok totalFee =>
      by_cases hroot : p = false ∧ stateRoot (setBalance (setBalance s1 b.coinbase blockReward)
          b.coinbase (Int.ediv totalFee 2)) ≠ b.root
      · simp [hroot]
        exact hc
      · simp [hroot]
        exact hc

/-- Processing a list whose prefix succeeds continues from the state the
prefix produced, accumulating the fee. -/
theorem processTxs_append_ok (l1 : List Transaction) :
    ∀ (s s1 : StateDB) (f : Int), processTxs s l1 = (s1, .ok f) →
    ∀ l2 : List Transaction,
      processTxs s (l1 ++ l2) =
        (match processTxs s1 l2 with
         | (s2, .error e) => (s2, .error e)
         | (s2, .ok g) => (s2, .ok (f + g))) := by
  induction l1 with
  | nil =>
    intro s s1 f h l2
    simp only [processTxs, Prod.mk.injEq, Except.ok.injEq] at h
    obtain ⟨hs, hf⟩ := h
    subst hs
    subst hf
    simp only [List.nil_append]
    cases hr : processTxs s l2 with
    | mk s2 r => cases r <;> simp
  | cons tx rest ih =>
    intro s s1 f h l2
    by_cases hn : (getNonce s tx.sender + 1) % u64 ≠ tx.accountNonce
    · simp only [processTxs, if_pos hn, Prod.mk.injEq] at h
      exact absurd h.2 (by simp)
    · simp only [processTxs, if_neg hn] at h
      cases hb : applyTxBody s tx with
      | error e =>
        simp only [hb] at h
        simp at h
      | ok p =>
        obtain ⟨sA, fee⟩ := p
        simp only [hb] at h
        cases hr : processTxs (setNonce sA tx.sender ((tx.accountNonce + 1) % u64)) rest with
        | mk s3 r =>
          simp only [hr] at h
          cases r with
          | error e => simp at h
          | ok g =>
            simp only [Prod.mk.injEq, Except.ok.injEq] at h
            obtain ⟨hs3, hf⟩ := h
            subst hs3
            have ihr := ih _ _ g hr l2
            simp only [List.cons_append, processTxs, if_neg hn, hb, List.append_eq]
            rw [ihr]
            cases hr2 : processTxs s3 l2 with
            | mk s4 r2 =>
              cases r2 with
              | error e => simp [hr2]
              | ok g2 =>
                subst hf
                simp [hr2, add_assoc]

/-- A transaction-processing failure is a block-state application failure
with the same handle and error. -/
theorem applyAndValidate_error_processTxs {s s1 : StateDB} {b : Block} {p : Bool} {e : String}
    (h : processTxs s b.body.transactions = (s1, .error e)) :
    applyAndValidateBlockState s b p = (s1, .error e) := by
  unfold applyAndValidateBlockState
  rw [h]

/-- When the replay root differs from the claimed root, non-speculative
block-state application fails with the wrong-state-root error. -/
theorem applyAndValidate_root_mismatch {s : StateDB} {b : Block} {r : Hash}
    (h : replayStateRoot s b = .ok r) (hne : r ≠ b.root) :
    ∃ s2, applyAndValidateBlockState s b false = (s2, .error "Wrong state root") := by
  unfold replayStateRoot at h
  unfold applyAndValidateBlockState
  cases hp : processTxs s b.body.transactions with
  | mk s1 rr =>
    simp only [hp] at h
    cases rr with
    | error e => simp at h
    | ok fee =>
      simp only [Except.ok.injEq] at h
      simp only [hp]
      refine ⟨setBalance (setBalance s1 b.coinbase blockReward) b.coinbase (Int.ediv fee 2), ?_⟩
      simp [h, hne]

/-- A failing block-state application makes `applyBlock` reset the handle
and return the error. -/
theorem applyBlock_error_of_state {s : StateDB} {b : Block} {s2 : StateDB} {e : String} {p : Bool}
    (hne : b.isEmpty = false)
    (he : applyAndValidateBlockState s b p = (s2, .error e)) :
    applyBlock s b p = (resetState s2, some e) := by
  unfold applyBlock
  rw [hne]
  simp only [Bool.false_eq_true, if_false, he]

/-- A failing block-state application makes `AddBlock` reject the non-empty
block with some error. -/
theorem addBlock_error_of_state {c : Chain} {b : Block}
    (hne : b.isEmpty = false)
    (h : ∃ s2 e, applyAndValidateBlockState c.stdb b false = (s2, .error e)) :
    ∃ e2, addBlock c b = .error e2 := by
  obtain ⟨s2, e, he⟩ := h
  unfold addBlock
  cases hv : validateBlockParentHash c b with
  | some e2 => exact ⟨e2, by simp only []⟩
  | none =>
    simp only []
    cases hp : validateProposedBlock c b with
    | some e2 =>
      refine ⟨e2, ?_⟩
      simp only [hne, Bool.false_eq_true, if_false, hp]
    | none =>
      refine ⟨e, ?_⟩
      simp only [hne, Bool.false_eq_true, if_false, hp]
      rw [applyBlock_error_of_state hne he]

/-- Map update at a key is read back at that key. -/
theorem mapGet_mapSet_self (m : AccountMap) (a : Address) (acc : Account) :
    mapGet (mapSet m a acc) a = acc := by
  induction m with
  | nil => simp [mapSet, mapGet]
  | cons p rest ih =>
    obtain ⟨x, acc0⟩ := p
    by_cases h : x = a
    · simp [mapSet, mapGet, h]
    · simp [mapSet, mapGet, h, ih]

/-- Map update at one key leaves reads at another key unchanged. -/
theorem mapGet_mapSet_other (m : AccountMap) (a b : Address) (acc : Account)
    (h : b ≠ a) : mapGet (mapSet m b acc) a = mapGet m a := by
  induction m with
  | nil => simp [mapSet, mapGet, h]
  | cons p rest ih =>
    obtain ⟨x, acc0⟩ := p
    by_cases hx : x = b
    · subst hx
      simp [mapSet, mapGet, h]
    · simp [mapSet, mapGet, hx, ih]

/-- Debiting an account decreases exactly its balance. -/
theorem getBalance_subBalance_self (s : StateDB) (a : Address) (x : Int) :
    getBalance (subBalance s a x) a = getBalance s a - x := by
  simp [getBalance, subBalance, getAccount, putAccount, mapGet_mapSet_self]

/-- Crediting one account leaves another account's balance unchanged. -/
theorem getBalance_addBalance_other (s : StateDB) (a b : Address) (x : Int)
    (h : b ≠ a) : getBalance (addBalance s b x) a = getBalance s a := by
  simp [getBalance, addBalance, getAccount, putAccount, mapGet_mapSet_other _ _ _ _ h]

/-- Setting a nonce leaves every balance unchanged. -/
theorem getBalance_setNonce (s : StateDB) (a b : Address) (n : Nat) :
    getBalance (setNonce s b n) a = getBalance s a := by
  by_cases h : b = a
  · subst h
    simp [getBalance, setNonce, getAccount, putAccount, mapGet_mapSet_self]
  · simp [getBalance, setNonce, getAccount, putAccount,
      mapGet_mapSet_other _ _ _ _ h]

/-- A passing parent check pins the head height and the parent hash. -/
theorem validateBlockParentHash_none {c : Chain} {b : Block}
    (h : validateBlockParentHash c b = none) :
    c.head.height = (b.height + (u64 - 1)) % u64 ∧ blockHash c.head = b.parentHash := by
  unfold validateBlockParentHash at h
  by_cases h1 : c.head.height ≠ (b.height + (u64 - 1)) % u64
  · simp [h1] at h
  · by_cases h2 : blockHash c.head ≠ b.parentHash
    · simp [h1, h2] at h
    · exact ⟨not_not.mp h1, not_not.mp h2⟩

/-! Claim theorems. -/

/-- C1: Root binding — for every non-empty block processed non-speculatively,
if the state root obtained by replaying the block's transactions atop the
parent state differs from the block's claimed root, `AddBlock` rejects the
block with an error and never accepts it. -/
theorem c1_root_binding (c : Chain) (b : Block) (r : Hash)
    (hne : b.isEmpty = false)
    (hr : replayStateRoot c.stdb b = .ok r)
    (hmm : r ≠ b.root) :
    ∃ e, addBlock c b = .error e := by
  apply addBlock_error_of_state hne
  obtain ⟨s2, hs⟩ := applyAndValidate_root_mismatch hr hmm
  exact ⟨s2, _, hs⟩

/-- Witness for C1: a concrete proposed block that passes every other
validation step (`ValidateProposedBlock` returns no error) but whose replay
root `[0,0,0,0]` differs from its claimed root `[9]` is rejected by
`AddBlock`. -/
theorem c1_root_binding_witness :
    validateProposedBlock sampleChain c1BlockW = none ∧
    ∃ e, addBlock sampleChain c1BlockW = .error e :=
  ⟨by decide,
   c1_root_binding sampleChain c1BlockW [0, 0, 0, 0] (by decide) (by decide) (by decide)⟩

/-- C2: Coinbase reward — refuted by evaluation: after the transactions of a
non-empty block are processed, the source overwrites the coinbase balance
with `SetBalance(BlockReward)` followed by `SetBalance(totalFee/2)`, so the
coinbase (prior balance 10) ends with balance 0 instead of the claimed
10 + 5 + 0. -/
theorem c2_coinbase_balance_overwritten :
    getBalance c2State 7 = 10 ∧
    (applyAndValidateBlockState c2State c2Block true).2 = .ok () ∧
    getBalance (applyAndValidateBlockState c2State c2Block true).1 7 = 0 := by decide

/-- C3: Nonce advancement — refuted by evaluation: a sender with stored
nonce 0 sends a valid transaction with nonce 1, and after application the
stored nonce is 2 (the source sets it to `tx.AccountNonce + 1`), not the
claimed old nonce + 1. -/
theorem c3_nonce_advances_by_two :
    getNonce sampleState 1 = 0 ∧
    (processTxs sampleState [c3Tx]).2 = .ok 0 ∧
    getNonce (processTxs sampleState [c3Tx]).1 1 = 2 := by decide

/-- C4: Determinism — two executions of the state transition engine on equal
prior states and equal blocks produce the identical outcome, identical
resulting roots and identical account-state contents. -/
theorem c4_determinism (s1 s2 : StateDB) (b1 b2 : Block) (p : Bool)
    (hs : s1 = s2) (hb : b1 = b2) :
    applyAndValidateBlockState s1 b1 p = applyAndValidateBlockState s2 b2 p ∧
    stateRoot (applyAndValidateBlockState s1 b1 p).1 =
      stateRoot (applyAndValidateBlockState s2 b2 p).1 ∧
    ((applyAndValidateBlockState s1 b1 p).1).working =
      ((applyAndValidateBlockState s2 b2 p).1).working := by
  subst hs
  subst hb
  exact ⟨rfl, rfl, rfl⟩

/-- Witness for C4 at a concrete state and block. -/
theorem c4_determinism_witness :
    applyAndValidateBlockState c2State c2Block false =
      applyAndValidateBlockState c2State c2Block false ∧
    stateRoot (applyAndValidateBlockState c2State c2Block false).1 =
      stateRoot (applyAndValidateBlockState c2State c2Block false).1 ∧
    ((applyAndValidateBlockState c2State c2Block false).1).working =
      ((applyAndValidateBlockState c2State c2Block false).1).working :=
  c4_determinism c2State c2State c2Block c2Block false rfl rfl

/-- C5: Nonce rejection — in a non-empty block, a transaction whose nonce
differs from its sender's stored nonce + 1 at its point of application (too
low or too high alike) makes transaction processing fail with the
invalid-nonce error and makes `AddBlock` reject the block. -/
theorem c5_nonce_rejection (c : Chain) (b : Block) (l1 : List Transaction)
    (tx : Transaction) (l2 : List Transaction) (s1 : StateDB) (f : Int)
    (hne : b.isEmpty = false)
    (hsplit : b.body.transactions = l1 ++ tx :: l2)
    (hpre : processTxs c.stdb l1 = (s1, .ok f))
    (hnonce : tx.accountNonce ≠ (getNonce s1 tx.sender + 1) % u64) :
    ∃ e, addBlock c b = .error e := by
  apply addBlock_error_of_state hne
  have happ := processTxs_append_ok l1 c.stdb s1 f hpre (tx :: l2)
  have hhead : processTxs s1 (tx :: l2) = (s1, .error "Invalid tx nonce") := by
    simp only [processTxs]
    rw [if_pos (Ne.symm hnonce)]
  refine ⟨s1, "Invalid tx nonce", ?_⟩
  apply applyAndValidate_error_processTxs
  rw [hsplit, happ, hhead]

/-- Witness for C5: a block that passes every validation step but whose
transaction carries nonce 5 against a stored nonce of 0 is rejected by
`AddBlock`. -/
theorem c5_nonce_rejection_witness :
    validateProposedBlock sampleChain c5BlockW = none ∧
    ∃ e, addBlock sampleChain c5BlockW = .error e :=
  ⟨by decide,
   c5_nonce_rejection sampleChain c5BlockW [] c5Tx [] sampleState 0
     (by decide) (by decide) (by decide) (by decide)⟩

/-- C6: VRF proof rejection — refuted by evaluation: `ValidateProposerProof`
discards the `ProofToHash` error, so a malformed proof (here `[]`, which
fails VRF verification) together with a claimed hash equal to the zero hash
is accepted (no error), although the claim says an invalid proof is never
accepted. -/
theorem c6_invalid_proof_accepted :
    (proofToHash 0 (getProposerData sampleChain) []).2 = false ∧
    validateProposerProof sampleChain [] zeroHash (marshalPubkey 0) = none := by decide

/-- C7: Rollback atomicity — when block application fails at any point on a
clean handle (pending contents equal committed contents), the handle returned
with the error equals the handle as it was before application began. -/
theorem c7_rollback (s : StateDB) (b : Block) (p : Bool)
    (hclean : s.working = s.committed)
    (hfail : (applyBlock s b p).2 ≠ none) :
    (applyBlock s b p).1 = s := by
  unfold applyBlock at hfail ⊢
  cases hbe : b.isEmpty with
  | true =>
    cases p <;> simp [hbe] at hfail
  | false =>
    cases hav : applyAndValidateBlockState s b p with
    | mk s2 r =>
      cases r with
      | ok u => cases p <;> simp [hbe, hav] at hfail
      | error e =>
        simp only [hbe, Bool.false_eq_true, if_false, hav]
        have hc : s2.committed = s.committed := by
          have hcc := applyAndValidate_committed s b p
          rw [hav] at hcc
          exact hcc
        show resetState s2 = s
        cases s with
        | mk sc sw =>
          simp only at hclean
          simp [resetState, hc, hclean]

/-- Witness for C7: a failing application (bad transaction nonce) on the
clean empty handle returns that handle unchanged. -/
theorem c7_rollback_witness : (applyBlock sampleState c7BlockW false).1 = sampleState :=
  c7_rollback sampleState c7BlockW false rfl (by decide)

/-- C8 counterexample: a send of the full balance (amount + fee equal to the
balance) whose recipient is the sender itself succeeds but leaves the
sender's balance at 5, not at the claimed 0. -/
theorem c8_counterexample :
    (processTxs c8SelfState [c8SelfTx]).2 = .ok 0 ∧
    getBalance (processTxs c8SelfState [c8SelfTx]).1 1 = 5 := by decide

/-- C8 (amended): for a send to a recipient distinct from the sender with a
correct nonce, `amount + fee` equal to the balance succeeds and leaves the
sender's balance exactly 0 (a self-send leaves it unchanged instead), and
`amount + fee` equal to balance + 1 fails with the not-enough-funds error
(the fee is the source's constant 0). -/
theorem c8_amended (s : StateDB) (snd rcv : Address) (amt : Int) (nn : Nat)
    (hdiff : rcv ≠ snd)
    (hn : nn = (getNonce s snd + 1) % u64) :
    (getBalance s snd = amt →
      (processTxs s [⟨nn, .sendTx, some rcv, amt, snd⟩]).2 = .ok 0 ∧
      getBalance (processTxs s [⟨nn, .sendTx, some rcv, amt, snd⟩]).1 snd = 0) ∧
    (getBalance s snd + 1 = amt →
      processTxs s [⟨nn, .sendTx, some rcv, amt, snd⟩] = (s, .error "Not enough funds")) := by
  subst hn
  constructor
  · intro hbal
    unfold processTxs applyTxBody
    rw [if_neg (by simp)]
    simp only [getTxFee]
    rw [if_neg (by rw [hbal]; norm_num)]
    unfold processTxs
    constructor
    · rfl
    · show getBalance (setNonce (addBalance (subBalance (subBalance s snd amt) snd 0)
        rcv amt) snd _) snd = 0
      rw [getBalance_setNonce]
      rw [getBalance_addBalance_other _ _ _ _ hdiff]
      rw [getBalance_subBalance_self, getBalance_subBalance_self, hbal]
      ring
  · intro hbal
    unfold processTxs applyTxBody
    rw [if_neg (by simp)]
    simp only [getTxFee]
    rw [if_pos (by omega)]

/-- Witness for C8 (amended): account 1 with balance 5 sends 5 to account 2;
the send succeeds and the sender's balance is exactly 0. -/
theorem c8_amended_witness :
    (processTxs c8SelfState [⟨1, .sendTx, some 2, 5, 1⟩]).2 = .ok 0 ∧
    getBalance (processTxs c8SelfState [⟨1, .sendTx, some 2, 5, 1⟩]).1 1 = 0 :=
  (c8_amended c8SelfState 1 2 5 1 (by decide) (by decide)).1 (by decide)

/-- C9 counterexample: on a concrete chain, the empty block's seed is the
Keccak-256 hash of the seed message, which differs from the value the
proposed-block derivation (a VRF evaluation, here under key 0) produces over
the very same seed message — the two derivations are not the same. -/
theorem c9_counterexample :
    (generateEmptyBlock sampleChain).body.blockSeed =
      keccak256 (getSeedData sampleChain (generateEmptyBlock sampleChain)) ∧
    keccak256 (getSeedData sampleChain (generateEmptyBlock sampleChain)) ≠
      (vrfEvaluate 0 (getSeedData sampleChain (generateEmptyBlock sampleChain))).1 := by decide

/-- C9 (amended): empty and proposed blocks share the seed-message
construction (`GetSeedData`: parent seed, height, block hash), but the
derivation applied to that message differs: an empty block's seed is the
Keccak-256 hash of its seed message, while a proposed block's seed is the
proposer's VRF evaluation of its seed message. -/
theorem c9_amended (c : Chain) (sk : Nat) (now : Int) (txs : List Transaction) (b : Block)
    (h : proposeBlock c sk now txs = .ok b) :
    (generateEmptyBlock c).body.blockSeed = keccak256 (getSeedData c (generateEmptyBlock c)) ∧
    b.body.blockSeed = (vrfEvaluate sk (getSeedData c b)).1 := by
  constructor
  · rfl
  · unfold proposeBlock at h
    cases hap : applyBlock c.stdb
        { header := .proposed
            { parentHash := blockHash c.head
              height := (c.head.height + 1) % u64
              time := now
              proposerPubKey := marshalPubkey sk
              txHash := deriveSha txs
              coinbase := pubkeyToAddress sk
              root := [] }
          body := { transactions := txs, blockSeed := [], seedProof := [] } } true with
    | mk cs o =>
      simp only [hap] at h
      cases o with
      | some e => simp at h
      | none =>
        simp only [Except.ok.injEq] at h
        subst h
        rfl

/-- Witness for C9 (amended) at a concrete chain, key, time and batch. -/
theorem c9_amended_witness :
    (generateEmptyBlock sampleChain).body.blockSeed =
      keccak256 (getSeedData sampleChain (generateEmptyBlock sampleChain)) ∧
    c9WBlock.body.blockSeed = (vrfEvaluate 0 (getSeedData sampleChain c9WBlock)).1 :=
  c9_amended sampleChain 0 0 [] c9WBlock (by decide)

/-- C10 counterexample: a well-linked empty block with a bogus claimed root
is accepted by `AddBlock` (the empty path validates nothing beyond parent
linkage), yet the head afterwards is the locally regenerated empty block,
which differs from the accepted input block. -/
theorem c10_counterexample :
    addBlock sampleChain c10Bad = .ok c10After ∧ c10After.head ≠ c10Bad := by decide

/-- C10 (amended): on a successful `AddBlock` the head is advanced exactly
once, to the accepted block itself when it is proposed, and to the locally
generated empty block (same height and parent, but not necessarily the
submitted block) when it is empty; every failing `AddBlock` returns before
`insertBlock`, leaving the head untouched. -/
theorem c10_head_advancement (c : Chain) (b : Block) (c2 : Chain)
    (hu : b.height < u64)
    (h : addBlock c b = .ok c2) :
    (b.isEmpty = false → c2.head = b) ∧
    (b.isEmpty = true → c2.head = generateEmptyBlock { head := c.head, stdb := c2.stdb }) ∧
    c2.head.height = (c.head.height + 1) % u64 := by
  unfold addBlock at h
  cases hv : validateBlockParentHash c b with
  | some e => simp [hv] at h
  | none =>
    simp only [hv] at h
    obtain ⟨hh, hp⟩ := validateBlockParentHash_none hv
    have hu64 : u64 = 18446744073709551616 := by norm_num [u64]
    cases hbe : b.isEmpty with
    | true =>
      simp only [hbe, if_true] at h
      cases hab : applyBlock c.stdb b false with
      | mk s1 o =>
        simp only [hab] at h
        cases o with
        | some e => simp at h
        | none =>
          simp only [Except.ok.injEq] at h
          subst h
          refine ⟨fun hfalse => by simp [hbe] at hfalse, fun hemp => rfl, ?_⟩
          rfl
    | false =>
      simp only [hbe, Bool.false_eq_true, if_false] at h
      cases hvp : validateProposedBlock c b with
      | some e => simp [hvp] at h
      | none =>
        simp only [hvp] at h
        cases hab : applyBlock c.stdb b false with
        | mk s1 o =>
          simp only [hab] at h
          cases o with
          | some e => simp at h
          | none =>
            simp only [Except.ok.injEq] at h
            subst h
            refine ⟨fun hpr => rfl, fun htrue => by simp [hbe] at htrue, ?_⟩
            show b.height = (c.head.height + 1) % u64
            rw [hu64] at hh hu ⊢
            omega

/-- Witness for C10 (amended): the accepted empty block advances the head to
the locally regenerated empty block at the next height. -/
theorem c10_head_advancement_witness :
    c10After.head = generateEmptyBlock { head := sampleChain.head, stdb := c10After.stdb } ∧
    c10After.head.height = (sampleChain.head.height + 1) % u64 := by
  have h := c10_head_advancement sampleChain c10Bad c10After (by decide) (by decide)
  exact ⟨h.2.1 (by decide), h.2.2⟩

end IdenaChain
